import Mathlib

/-!
Verification of the `vscode-open-url` extension (`src/extension.ts`).

The file embeds the pure core of the extension in Lean:

* `JsValue` models the JavaScript values a raw `openUrl.urls`
  configuration list can contain, together with the JavaScript
  primitives the source relies on (`typeof`, truthiness, `String(...)`,
  property access — which throws a `TypeError` on `null`/`undefined`).
* `normalizeConfigEntries` embeds the TypeScript function of the same
  name; a thrown JavaScript exception is modelled as `Except.error`.
* `resolveVar` embeds the resolver dispatch inside `expandVariables`;
  `expandFuel`/`expandChars` embed the global regex replacement
  `template.replace(/\$\x7b([^\x7d]+)\x7d/g, ...)` as a left-to-right
  scan over the character list, and `expandVariables` embeds the outer
  function including its falsy-template early return.
* `selectEntry` embeds the entry-selection logic of `openUrlAction`
  (lines 103–116), instrumented with a flag recording whether the
  interactive picker was invoked.
* `openUrlAction` embeds the orchestrator, with the host-provided
  collaborators (picker, `encodeURI` + `Uri.parse`, `openExternal`)
  passed in as functions; its try/catch is modelled with `Except`.
-/

mutual

/-- A JavaScript value, as far as the extension code can observe one:
`null`, `undefined`, booleans, (integer) numbers, strings, objects with
named fields, and arrays.  The source only ever reads the fields `url`
and `label`.  Arrays carry their own list type `JsArray` so that the
recursive array stringification below is structural. -/
inductive JsValue where
  | null
  | undefined
  | bool (b : Bool)
  | num (n : Int)
  | str (s : String)
  | obj (fields : List (String × JsValue))
  | arr (elems : JsArray)

/-- A JavaScript array of values. -/
inductive JsArray where
  | nil
  | cons (head : JsValue) (tail : JsArray)

end

/-- JavaScript `typeof`.  Note `typeof null === "object"` and
`typeof [] === "object"`. -/
def jsTypeof : JsValue → String
  | .null => "object"
  | .undefined => "undefined"
  | .bool _ => "boolean"
  | .num _ => "number"
  | .str _ => "string"
  | .obj _ => "object"
  | .arr _ => "object"

/-- JavaScript truthiness. -/
def truthy : JsValue → Bool
  | .null => false
  | .undefined => false
  | .bool b => b
  | .num n => n != 0
  | .str s => s != ""
  | .obj _ => true
  | .arr _ => true

mutual

/-- `Array.prototype.join(",")` over the element strings, as used by
`Array.prototype.toString`: elements are separated by commas. -/
def joinElems : JsArray → String
  | .nil => ""
  | .cons x .nil => jsElem x
  | .cons x tail => jsElem x ++ "," ++ joinElems tail
termination_by structural a => a

/-- The per-element conversion of `Array.prototype.join`: `null` and
`undefined` render as the empty string; every other value renders as
`String(v)` (nested arrays join recursively). -/
def jsElem : JsValue → String
  | .null => ""
  | .undefined => ""
  | .bool true => "true"
  | .bool false => "false"
  | .num n => toString n
  | .str s => s
  | .obj _ => "[object Object]"
  | .arr elems => joinElems elems
termination_by structural v => v

end

/-- JavaScript `String(v)` for the value shapes of the model.  An array
stringifies as its comma-join, so `String([])` and `String([""])` are
both the empty string. -/
def jsString : JsValue → String
  | .null => "null"
  | .undefined => "undefined"
  | .bool true => "true"
  | .bool false => "false"
  | .num n => toString n
  | .str s => s
  | .obj _ => "[object Object]"
  | .arr elems => joinElems elems

/-- JavaScript property access `v.k`: throws a `TypeError` on `null`
and `undefined`, yields `undefined` for a missing field and for fields
of boxed primitives and of arrays (a JSON configuration array defines
neither `url` nor `label`). -/
def getField : JsValue → String → Except String JsValue
  | .null, k => .error ("TypeError: Cannot read properties of null (reading " ++ k ++ ")")
  | .undefined, k => .error ("TypeError: Cannot read properties of undefined (reading " ++ k ++ ")")
  | .obj fields, k => .ok (((fields.find? (fun p => p.1 == k)).map Prod.snd).getD .undefined)
  | _, _ => .ok .undefined

/-- Whether a value is `null` (used to state which inputs make the
normalizer throw). -/
def isNullVal : JsValue → Bool
  | .null => true
  | _ => false

/-- The normalized entry type `{ label?: string; url: string }`.  The
source copies `it.label`/`it.url` verbatim, so both fields hold raw
JavaScript values (`label` is `undefined` when absent). -/
structure UrlEntry where
  label : JsValue
  url : JsValue

/-- One step of the `raw.map((it) => ...)` callback inside
`normalizeConfigEntries`:
strings become `{url: it}`; objects with a truthy `url` become
`{label: it.label, url: it.url}`; everything else becomes
`{url: String(it)}`.  Reading `.url` of a `null` element throws. -/
def normalizeOne (it : JsValue) : Except String UrlEntry :=
  if jsTypeof it = "string" then
    .ok { label := .undefined, url := it }
  else if jsTypeof it = "object" then
    match getField it "url" with
    | .error e => .error e
    | .ok u =>
      if truthy u then
        match getField it "label" with
        | .error e => .error e
        | .ok lab => .ok { label := lab, url := u }
      else .ok { label := .undefined, url := .str (jsString it) }
  else .ok { label := .undefined, url := .str (jsString it) }

/-- `Array.prototype.map` with a callback that can throw: elements are
processed left to right and the first exception aborts the whole map. -/
def mapEntries : List JsValue → Except String (List UrlEntry)
  | [] => .ok []
  | it :: rest =>
    match normalizeOne it with
    | .error e => .error e
    | .ok e =>
      match mapEntries rest with
      | .error err => .error err
      | .ok es => .ok (e :: es)

/-- `normalizeConfigEntries(raw)`: absent (`undefined`) input yields
`[]`, otherwise the list is mapped elementwise by `normalizeOne`. -/
def normalizeConfigEntries : Option (List JsValue) → Except String (List UrlEntry)
  | none => .ok []
  | some l => mapEntries l

/-- The active-editor part of the context snapshot consumed by
`expandVariables`: `document.uri.fsPath`, the host function
`asRelativePath(document.uri, false)`, `document.getText(selection)`
and `selection.active.line` (0-based). -/
structure Editor where
  fsPath : String
  relativePath : String
  selectedText : String
  selectionLine : Nat

/-- One workspace folder: its `name` and its `uri.fsPath`. -/
structure WorkspaceFolder where
  name : String
  fsPath : String

/-- The context snapshot read by `expandVariables`: the optional active
editor, the (possibly empty) workspace-folder list, `process.cwd()` and
the `process.env` lookup. -/
structure Ctx where
  editor : Option Editor
  workspaceFolders : List WorkspaceFolder
  cwd : String
  env : String → Option String

/-- JavaScript `String.prototype.split` with a single-character
separator, on the character list: keeps empty segments and never
returns an empty list. -/
def splitOnChar (c : Char) : List Char → List (List Char)
  | [] => [[]]
  | x :: xs =>
    if x = c then [] :: splitOnChar c xs
    else
      match splitOnChar c xs with
      | [] => [[x]]
      | r :: rs => (x :: r) :: rs

/-- `s.split(c)` producing strings. -/
def jsSplit (s : String) (c : Char) : List String :=
  (splitOnChar c s.data).map String.mk

/-- `path.split('/').pop() || ''`: the last `/`-separated segment. -/
def jsBasename (p : String) : String :=
  String.mk ((splitOnChar '/' p.data).getLastD [])

/-- JavaScript `String.prototype.lastIndexOf` for a single character:
the index of the last occurrence, `-1` when absent. -/
def lastIndexOfChar (l : List Char) (c : Char) : Int :=
  match l with
  | [] => -1
  | x :: xs =>
    let r := lastIndexOfChar xs c
    if r ≥ 0 then r + 1
    else if x = c then 0
    else -1

/-- JavaScript `String.prototype.startsWith`. -/
def jsStartsWith (s p : String) : Bool :=
  p.data.isPrefixOf s.data

/-- The resolver dispatch of `expandVariables` (lines 26–84): given the
captured placeholder expression, produce its replacement.  The branches
are checked in source order; the final fallback consults the
environment. -/
def resolveVar (ctx : Ctx) (expr : String) : String :=
  if jsStartsWith expr "env:" = true then
    (ctx.env (String.mk (expr.data.drop 4))).getD ""
  else if jsStartsWith expr "workspaceFolder" = true then
    let parts := jsSplit expr ':'
    if parts.length = 1 then
      ((ctx.workspaceFolders[0]?).map WorkspaceFolder.fsPath).getD ""
    else
      ((ctx.workspaceFolders.find? (fun f => f.name == parts.getD 1 "")).map
        WorkspaceFolder.fsPath).getD ""
  else if expr = "cwd" then ctx.cwd
  else if expr = "file" ∨ expr = "filePath" then
    (ctx.editor.map Editor.fsPath).getD ""
  else if expr = "fileBasename" then
    match ctx.editor with
    | some ed => jsBasename ed.relativePath
    | none => ""
  else if expr = "fileBasenameNoExtension" then
    let base :=
      match ctx.editor with
      | some ed => jsBasename ed.relativePath
      | none => ""
    let idx := lastIndexOfChar base.data '.'
    if idx > 0 then String.mk (base.data.take idx.toNat) else base
  else if expr = "fileDirname" then
    match ctx.editor with
    | none => ""
    | some ed =>
      let idx := lastIndexOfChar ed.fsPath.data '/'
      if idx ≥ 0 then String.mk (ed.fsPath.data.take idx.toNat) else ""
  else if expr = "relativeFile" then
    (ctx.editor.map Editor.relativePath).getD ""
  else if expr = "selectedText" then
    (ctx.editor.map Editor.selectedText).getD ""
  else if expr = "lineNumber" then
    match ctx.editor with
    | none => ""
    | some ed => toString (ed.selectionLine + 1)
  else (ctx.env expr).getD ""

/-- Split a character list at its first `\x7d` (closing brace):
`findBrace l = some (before, after)` with `l = before ++ [brace] ++
after`, `none` when `l` has no closing brace. -/
def findBrace : List Char → Option (List Char × List Char)
  | [] => none
  | c :: rest =>
    if c = '\x7d' then some ([], rest)
    else
      match findBrace rest with
      | some (a, b) => some (c :: a, b)
      | none => none

/-- Fuel-indexed left-to-right scan implementing the global regex
replacement of `/\$\x7b([^\x7d]+)\x7d/g`: at `$` followed by an open
brace, the capture runs to the first closing brace and must be
non-empty; on a match the resolver output is substituted verbatim
(never re-scanned) and the scan resumes after the closing brace; on a
failed match the scan resumes one character later.  `fuel` bounds the
recursion; one unit is spent per step and every step consumes at least
one input character, so `fuel = l.length` computes the full scan. -/
def expandFuel (R : String → String) : Nat → List Char → List Char
  | 0, _ => []
  | _ + 1, [] => []
  | f + 1, c :: rest =>
    match rest with
    | [] => [c]
    | c2 :: rest2 =>
      if c = '$' ∧ c2 = '\x7b' then
        match findBrace rest2 with
        | some (expr, after) =>
          if expr = [] then c :: c2 :: expandFuel R f rest2
          else (R (String.mk expr)).data ++ expandFuel R f after
        | none => c :: c2 :: expandFuel R f rest2
      else c :: expandFuel R f rest

/-- The full regex replacement on a character list. -/
def expandChars (R : String → String) (l : List Char) : List Char :=
  expandFuel R l.length l

/-- Fuel-indexed version of the placeholder search, mirroring the fuel
discipline of `expandFuel`. -/
def hasPlaceholderFuel : Nat → List Char → Bool
  | 0, _ => false
  | _ + 1, [] => false
  | f + 1, c :: rest =>
    match rest with
    | [] => false
    | c2 :: rest2 =>
      if c = '$' ∧ c2 = '\x7b' then
        match findBrace rest2 with
        | some (expr, _) => if expr = [] then hasPlaceholderFuel f rest2 else true
        | none => hasPlaceholderFuel f rest2
      else hasPlaceholderFuel f rest

/-- Whether the scan would find at least one placeholder match
(a `$`, an open brace, a non-empty run without closing braces, and a
closing brace). -/
def hasPlaceholder (l : List Char) : Bool :=
  hasPlaceholderFuel l.length l

/-- `expandVariables(template)`: a falsy template (`undefined` or the
empty string) yields `""`; otherwise the regex replacement runs with
the resolver over the given context snapshot. -/
def expandVariables (ctx : Ctx) (template : Option String) : String :=
  match template with
  | none => ""
  | some t => if t = "" then "" else String.mk (expandChars (resolveVar ctx) t.data)

/-- The call `expandVariables(pick.url)` made with a raw JavaScript
value: a string runs the expander, any other falsy value hits the
`!template` early return, and a truthy non-string throws when the
code calls `.replace` on it. -/
def expandJs (ctx : Ctx) (v : JsValue) : Except String String :=
  match v with
  | .str s => .ok (expandVariables ctx (some s))
  | other =>
    if truthy other then .error "TypeError: template.replace is not a function"
    else .ok ""

/-- ECMAScript whitespace as far as `String.prototype.trim` is
concerned (the code points that can realistically appear here). -/
def jsWhitespaceChar (c : Char) : Bool :=
  c = ' ' ∨ c = '\t' ∨ c = '\n' ∨ c = '\r' ∨ c = '\x0b' ∨ c = '\x0c' ∨ c = '\xa0'

/-- JavaScript `String.prototype.trim`. -/
def jsTrim (s : String) : String :=
  String.mk (((s.data.dropWhile jsWhitespaceChar).reverse.dropWhile jsWhitespaceChar).reverse)

/-- A quick-pick item as built on line 108:
`{ label: e.label ?? e.url, description: e.label ? e.url : undefined,
entry: e }`. -/
structure PickItem where
  label : JsValue
  description : Option JsValue
  entry : UrlEntry

/-- Whether `??` falls through to its right operand. -/
def isNullish : JsValue → Bool
  | .null => true
  | .undefined => true
  | _ => false

def toPickItem (e : UrlEntry) : PickItem :=
  { label := if isNullish e.label then e.url else e.label
    description := if truthy e.label then some e.url else none
    entry := e }

/-- The entry-selection logic of `openUrlAction` (lines 103–116): one
entry is taken directly, otherwise the interactive picker chooses (or
cancels).  The boolean records whether the picker was invoked. -/
def selectEntry (entries : List UrlEntry)
    (picker : List PickItem → Option PickItem) : Option UrlEntry × Bool :=
  if entries.length = 1 then (entries[0]?, false)
  else ((picker (entries.map toPickItem)).map PickItem.entry, true)

/-- The user-visible outcome of one command invocation. -/
inductive Outcome where
  | showInfo (msg : String)
  | silent
  | showError (msg : String)
  | opened (url : String)

/-- The instrumented result of one `openUrlAction` run: the outcome (or
an uncaught exception), and whether the picker and the external opener
were invoked. -/
structure RunResult where
  result : Except String Outcome
  pickerInvoked : Bool
  openerInvoked : Bool

/-- The orchestrator `openUrlAction`: normalize the raw configuration,
handle the empty case, select an entry, then inside try/catch expand,
reject empty/whitespace expansions, encode and open.  `encode` models
`encodeURI`, `opener` models `Uri.parse` + `vscode.env.openExternal`;
either may fail, and any failure inside the try block is reported as
`Failed to open URL: <description>`.  `normalizeConfigEntries` runs
outside the try block, so its exceptions escape as `.error`. -/
def openUrlAction (raw : Option (List JsValue)) (ctx : Ctx)
    (picker : List PickItem → Option PickItem)
    (encode : String → Except String String)
    (opener : String → Except String Unit) : RunResult :=
  match normalizeConfigEntries raw with
  | .error e => ⟨.error e, false, false⟩
  | .ok entries =>
    if entries.length = 0 then
      ⟨.ok (.showInfo "No URLs configured in `openUrl.urls`."), false, false⟩
    else
      match selectEntry entries picker with
      | (none, pInv) => ⟨.ok .silent, pInv, false⟩
      | (some p, pInv) =>
        match expandJs ctx p.url with
        | .error err => ⟨.ok (.showError ("Failed to open URL: " ++ err)), pInv, false⟩
        | .ok expanded =>
          if expanded = "" ∨ (jsTrim expanded).length = 0 then
            ⟨.ok (.showError "URL is empty after variable expansion."), pInv, false⟩
          else
            match encode expanded with
            | .error err => ⟨.ok (.showError ("Failed to open URL: " ++ err)), pInv, false⟩
            | .ok safe =>
              match opener safe with
              | .error err => ⟨.ok (.showError ("Failed to open URL: " ++ err)), pInv, true⟩
              | .ok _ => ⟨.ok (.opened safe), pInv, true⟩

/-! ### Auxiliary lemmas about the scanner -/

theorem string_mk_data (s : String) : String.mk s.data = s := rfl

theorem findBrace_sound : ∀ l a b, findBrace l = some (a, b) →
    l = a ++ '\x7d' :: b ∧ '\x7d' ∉ a := by
  intro l
  induction l with
  | nil => intro a b h; simp [findBrace] at h
  | cons c rest ih =>
    intro a b h
    by_cases hc : c = '\x7d'
    · subst hc
      simp [findBrace] at h
      obtain ⟨rfl, rfl⟩ := h
      simp
    · simp [findBrace, hc] at h
      match hfb : findBrace rest with
      | none => rw [hfb] at h; simp at h
      | some (a', b') =>
        rw [hfb] at h
        simp at h
        obtain ⟨rfl, rfl⟩ := h
        obtain ⟨h1, h2⟩ := ih a' b' hfb
        subst h1
        refine ⟨by simp, ?_⟩
        simp only [List.mem_cons, not_or]
        exact ⟨fun hx => hc hx.symm, h2⟩

theorem findBrace_append : ∀ a b, '\x7d' ∉ a →
    findBrace (a ++ '\x7d' :: b) = some (a, b) := by
  intro a
  induction a with
  | nil => intro b _; simp [findBrace]
  | cons c a' ih =>
    intro b h
    simp only [List.mem_cons, not_or] at h
    obtain ⟨h1, h2⟩ := h
    have hc : ¬c = '\x7d' := fun hx => h1 hx.symm
    simp [findBrace, hc, ih b h2]

theorem expandFuel_congr (R : String → String) :
    ∀ f g l, l.length ≤ f → l.length ≤ g → expandFuel R f l = expandFuel R g l := by
  intro f
  induction f with
  | zero =>
    intro g l hf _
    obtain rfl : l = [] := List.length_eq_zero.mp (Nat.le_zero.mp hf)
    cases g <;> rfl
  | succ f ih =>
    intro g l hf hg
    match l with
    | [] => cases g <;> rfl
    | [c] =>
      cases g with
      | zero => simp at hg
      | succ g' => rfl
    | c :: c2 :: rest2 =>
      cases g with
      | zero => simp at hg
      | succ g' =>
        simp only [List.length_cons] at hf hg
        by_cases h : c = '$' ∧ c2 = '\x7b'
        · simp only [expandFuel, if_pos h]
          match hfb : findBrace rest2 with
          | some (expr, after) =>
            obtain ⟨heq, -⟩ := findBrace_sound rest2 expr after hfb
            have hlen : after.length ≤ rest2.length := by
              subst heq; simp; omega
            by_cases he : expr = []
            · simp only [he, if_pos rfl]
              rw [ih g' rest2 (by omega) (by omega)]
              simp
            · simp only [if_neg he]
              rw [ih g' after (by omega) (by omega)]
          | none =>
            rw [ih g' rest2 (by omega) (by omega)]
        · simp only [expandFuel, if_neg h]
          rw [ih g' (c2 :: rest2) (by simp; omega) (by simp; omega)]

theorem hasPlaceholderFuel_congr :
    ∀ f g l, l.length ≤ f → l.length ≤ g → hasPlaceholderFuel f l = hasPlaceholderFuel g l := by
  intro f
  induction f with
  | zero =>
    intro g l hf _
    obtain rfl : l = [] := List.length_eq_zero.mp (Nat.le_zero.mp hf)
    cases g <;> rfl
  | succ f ih =>
    intro g l hf hg
    match l with
    | [] => cases g <;> rfl
    | [c] =>
      cases g with
      | zero => simp at hg
      | succ g' => rfl
    | c :: c2 :: rest2 =>
      cases g with
      | zero => simp at hg
      | succ g' =>
        simp only [List.length_cons] at hf hg
        by_cases h : c = '$' ∧ c2 = '\x7b'
        · simp only [hasPlaceholderFuel, if_pos h]
          match hfb : findBrace rest2 with
          | some (expr, after) =>
            by_cases he : expr = []
            · simp only [he, if_pos rfl]
              exact ih g' rest2 (by omega) (by omega)
            · simp only [if_neg he]
          | none =>
            exact ih g' rest2 (by omega) (by omega)
        · simp only [hasPlaceholderFuel, if_neg h]
          exact ih g' (c2 :: rest2) (by simp; omega) (by simp; omega)

theorem expandFuel_id_of_no_placeholder (R : String → String) :
    ∀ f l, l.length ≤ f → hasPlaceholderFuel f l = false → expandFuel R f l = l := by
  intro f
  induction f with
  | zero =>
    intro l hf _
    obtain rfl : l = [] := List.length_eq_zero.mp (Nat.le_zero.mp hf)
    rfl
  | succ f ih =>
    intro l hf hp
    match l with
    | [] => rfl
    | [c] => rfl
    | c :: c2 :: rest2 =>
      simp only [List.length_cons] at hf
      by_cases h : c = '$' ∧ c2 = '\x7b'
      · simp only [expandFuel, if_pos h]
        simp only [hasPlaceholderFuel, if_pos h] at hp
        match hfb : findBrace rest2 with
        | some (expr, after) =>
          rw [hfb] at hp
          by_cases he : expr = []
          · simp only [he, eq_self_iff_true, if_true] at hp
            simp only [he, eq_self_iff_true, if_true]
            rw [ih rest2 (by omega) (by simpa using hp)]
          · simp only [if_neg he] at hp
            simp at hp
        | none =>
          rw [hfb] at hp
          rw [ih rest2 (by omega) hp]
      · simp only [expandFuel, if_neg h]
        simp only [hasPlaceholderFuel, if_neg h] at hp
        rw [ih (c2 :: rest2) (by simp; omega) hp]

theorem expandChars_id_of_no_placeholder (R : String → String) (l : List Char)
    (h : hasPlaceholder l = false) : expandChars R l = l :=
  expandFuel_id_of_no_placeholder R l.length l (Nat.le_refl _) h

/-- A template without any placeholder match expands to itself. -/
theorem expandVariables_id_of_no_placeholder (ctx : Ctx) (s : String)
    (h : hasPlaceholder s.data = false) : expandVariables ctx (some s) = s := by
  unfold expandVariables
  by_cases hs : s = ""
  · simp [hs]
  · simp only [if_neg hs]
    rw [expandChars_id_of_no_placeholder _ _ h]

theorem expandChars_cons_of_ne (R : String → String) (c : Char) (l : List Char)
    (h : ¬(c = '$' ∧ l.head? = some '\x7b')) :
    expandChars R (c :: l) = c :: expandChars R l := by
  match l with
  | [] => rfl
  | c2 :: rest2 =>
    have h2 : ¬(c = '$' ∧ c2 = '\x7b') := by
      intro ⟨ha, hb⟩; exact h ⟨ha, by rw [hb]; rfl⟩
    simp only [expandChars, List.length_cons, expandFuel, if_neg h2]

/-- Scanning a `$`-free prefix copies it verbatim and continues behind
it. -/
theorem expandChars_append_no_dollar (R : String → String) :
    ∀ p l, (∀ c ∈ p, c ≠ '$') → expandChars R (p ++ l) = p ++ expandChars R l := by
  intro p
  induction p with
  | nil => intro l _; rfl
  | cons c p' ih =>
    intro l h
    have hc : c ≠ '$' := h c (by simp)
    have hrec : ∀ c' ∈ p', c' ≠ '$' := fun c' hm => h c' (by simp [hm])
    rw [List.cons_append, expandChars_cons_of_ne R c (p' ++ l) (fun hand => hc hand.1)]
    rw [ih l hrec]
    rfl

/-- Scanning a well-formed placeholder at the head substitutes the
resolver output and resumes after the closing brace. -/
theorem expandChars_head_match (R : String → String) (expr post : List Char)
    (hne : expr ≠ []) (hnb : '\x7d' ∉ expr) :
    expandChars R ('$' :: '\x7b' :: (expr ++ '\x7d' :: post)) =
      (R (String.mk expr)).data ++ expandChars R post := by
  have hfb := findBrace_append expr post hnb
  simp only [expandChars, List.length_cons, expandFuel, hfb, if_neg hne,
    eq_self_iff_true, and_self, if_true]
  congr 1
  refine expandFuel_congr R _ _ post ?_ (Nat.le_refl _)
  simp [List.length_append]
  omega

/-! ### Auxiliary lemmas about the resolver -/

/-- An expression matching no named rule, whose environment lookup also
fails, resolves to the empty string. -/
theorem resolveVar_unknown (ctx : Ctx) (expr : String)
    (h1 : jsStartsWith expr "env:" = false)
    (h2 : jsStartsWith expr "workspaceFolder" = false)
    (h3 : expr ≠ "cwd") (h4 : expr ≠ "file") (h5 : expr ≠ "filePath")
    (h6 : expr ≠ "fileBasename") (h7 : expr ≠ "fileBasenameNoExtension")
    (h8 : expr ≠ "fileDirname") (h9 : expr ≠ "relativeFile")
    (h10 : expr ≠ "selectedText") (h11 : expr ≠ "lineNumber")
    (henv : ctx.env expr = none) : resolveVar ctx expr = "" := by
  simp [resolveVar, h1, h2, h3, h4, h5, h6, h7, h8, h9, h10, h11, henv]

theorem splitOnChar_of_not_mem (c : Char) : ∀ l, c ∉ l → splitOnChar c l = [l] := by
  intro l
  induction l with
  | nil => intro _; rfl
  | cons x xs ih =>
    intro h
    simp only [List.mem_cons, not_or] at h
    obtain ⟨h1, h2⟩ := h
    have hx : ¬x = c := fun hh => h1 hh.symm
    simp only [splitOnChar, if_neg hx, ih h2]

theorem env_prefixed_has_colon (s : String) (h : jsStartsWith s "env:" = true) :
    ':' ∈ s.data := by
  unfold jsStartsWith at h
  rw [List.isPrefixOf_iff_prefix] at h
  obtain ⟨t, ht⟩ := h
  rw [← ht]
  simp

/-! ### Auxiliary lemmas about the normalizer -/

/-- `normalizeOne` only throws on `null` elements. -/
theorem normalizeOne_ok_of_not_null (it : JsValue) (h : isNullVal it = false) :
    ∃ e, normalizeOne it = .ok e := by
  match it with
  | .null => simp [isNullVal] at h
  | .undefined => exact ⟨_, rfl⟩
  | .bool b => exact ⟨_, rfl⟩
  | .num n => exact ⟨_, rfl⟩
  | .str s => exact ⟨_, rfl⟩
  | .arr elems => exact ⟨_, rfl⟩
  | .obj fields =>
    unfold normalizeOne
    simp only [jsTypeof]
    match hu : getField (.obj fields) "url" with
    | .error e =>
      simp only [getField] at hu
      simp at hu
    | .ok u =>
      by_cases ht : truthy u = true
      · simp [hu, ht, getField]
      · simp [hu, ht, getField]

theorem mapEntries_ok_of_not_null : ∀ l : List JsValue, (∀ x ∈ l, isNullVal x = false) →
    ∃ es, mapEntries l = .ok es := by
  intro l
  induction l with
  | nil => intro _; exact ⟨[], rfl⟩
  | cons it rest ih =>
    intro h
    obtain ⟨e, he⟩ := normalizeOne_ok_of_not_null it (h it (by simp))
    obtain ⟨es, hes⟩ := ih (fun x hx => h x (by simp [hx]))
    exact ⟨e :: es, by simp [mapEntries, he, hes]⟩

/-- Unless the raw element stringifies to the empty string — the empty
string itself, or an array whose comma-join is empty — the entry built
from it has a truthy `url`. -/
theorem normalizeOne_truthy_url (it : JsValue) (h : jsString it ≠ "")
    (e : UrlEntry) (hok : normalizeOne it = .ok e) : truthy e.url = true := by
  have hfb : truthy (JsValue.str (jsString it)) = true := by
    simp only [truthy, bne_iff_ne, ne_eq, decide_eq_true_eq]
    exact h
  match it with
  | .null => simp [normalizeOne, jsTypeof, getField] at hok
  | .undefined =>
    simp [normalizeOne, jsTypeof] at hok
    rw [← hok]
    exact hfb
  | .bool b =>
    simp [normalizeOne, jsTypeof] at hok
    rw [← hok]
    exact hfb
  | .num n =>
    simp [normalizeOne, jsTypeof] at hok
    rw [← hok]
    exact hfb
  | .str s =>
    simp [normalizeOne, jsTypeof] at hok
    rw [← hok]
    exact hfb
  | .arr elems =>
    simp [normalizeOne, jsTypeof, getField, truthy] at hok
    rw [← hok]
    exact hfb
  | .obj fields =>
    simp only [normalizeOne, jsTypeof, reduceIte] at hok
    match hu : getField (.obj fields) "url" with
    | .error err => simp [getField] at hu
    | .ok u =>
      rw [hu] at hok
      by_cases ht : truthy u = true
      · match hl : getField (.obj fields) "label" with
        | .error err => simp [getField] at hl
        | .ok lab =>
          rw [hl] at hok
          simp only [ht, if_pos rfl] at hok
          simp at hok
          rw [← hok]
          exact ht
      · simp only [if_neg ht] at hok
        simp at hok
        rw [← hok]
        exact hfb

/-- Successful `mapEntries` runs preserve length and map elements
positionally through `normalizeOne`. -/
theorem mapEntries_spec : ∀ (l : List JsValue) (es : List UrlEntry), mapEntries l = .ok es →
    es.length = l.length ∧ ∀ i (hi : i < l.length) (hj : i < es.length),
      normalizeOne (l.get ⟨i, hi⟩) = .ok (es.get ⟨i, hj⟩) := by
  intro l
  induction l with
  | nil =>
    intro es h
    simp only [mapEntries] at h
    simp at h
    subst h
    exact ⟨rfl, fun i hi => by simp at hi⟩
  | cons it rest ih =>
    intro es h
    simp only [mapEntries] at h
    match hn : normalizeOne it with
    | .error e => rw [hn] at h; simp at h
    | .ok e =>
      rw [hn] at h
      match hm : mapEntries rest with
      | .error err => rw [hm] at h; simp at h
      | .ok es2 =>
        rw [hm] at h
        simp at h
        subst h
        obtain ⟨hlen, hidx⟩ := ih es2 hm
        refine ⟨by simp [hlen], ?_⟩
        intro i hi hj
        match i with
        | 0 => exact hn
        | i + 1 =>
          simp only [List.length_cons] at hi hj
          exact hidx i (by omega) (by omega)

/-! ### Concrete contexts used by witnesses and counterexamples -/

/-- A bare context: no active editor, no workspace folders, empty
environment. -/
def ctx0 : Ctx := { editor := none, workspaceFolders := [], cwd := "/", env := fun _ => none }

/-- An editor whose document has as workspace-relative path the leading-dot
multi-dot basename `.report.final.txt`. -/
def edC1 : Editor :=
  { fsPath := "/w/.report.final.txt", relativePath := ".report.final.txt",
    selectedText := "", selectionLine := 0 }

def ctxC1 : Ctx := { editor := some edC1, workspaceFolders := [], cwd := "/", env := fun _ => none }

/-! ### Claim theorems -/

/-- C1 (counterexample): with an active document whose relative basename
is `.report.final.txt`, expanding `$\x7bfileBasenameNoExtension\x7d` does
NOT return the full basename unchanged: the last dot sits at index 13,
which is `> 0`, so the code strips `.txt` and yields `.report.final`. -/
theorem c1_counterexample :
    expandVariables ctxC1 (some "$\x7bfileBasenameNoExtension\x7d") = ".report.final" ∧
    (".report.final" : String) ≠ ".report.final.txt" := by
  refine ⟨rfl, ?_⟩
  decide

/-- C1 (amended): for an active document whose relative basename is
`.report.final.txt`, expanding `$\x7bfileBasenameNoExtension\x7d` yields
`.report.final`: the last `.`-delimited suffix is stripped because the
last dot is not the first character; only a dot at index 0 is exempt. -/
theorem c1_amended (ctx : Ctx) (ed : Editor) (hed : ctx.editor = some ed)
    (hb : jsBasename ed.relativePath = ".report.final.txt") :
    expandVariables ctx (some "$\x7bfileBasenameNoExtension\x7d") = ".report.final" := by
  have hres : resolveVar ctx "fileBasenameNoExtension" = ".report.final" := by
    unfold resolveVar
    rw [if_neg (by decide), if_neg (by decide), if_neg (by decide), if_neg (by decide),
      if_neg (by decide), if_pos rfl]
    simp only [hed, hb]
    decide
  rw [show expandVariables ctx (some "$\x7bfileBasenameNoExtension\x7d") =
      String.mk (expandChars (resolveVar ctx)
        ('$' :: '\x7b' :: ("fileBasenameNoExtension".data ++ '\x7d' :: []))) from rfl]
  rw [expandChars_head_match _ _ _ (by decide) (by decide)]
  rw [show String.mk ("fileBasenameNoExtension".data) = "fileBasenameNoExtension" from rfl, hres]
  rfl

/-- C1 (witness for the amended claim), at the concrete context
`ctxC1`. -/
theorem c1_amended_witness :
    expandVariables ctxC1 (some "$\x7bfileBasenameNoExtension\x7d") = ".report.final" :=
  c1_amended ctxC1 edC1 rfl rfl

/-- C2: `normalize` is NOT total: on the raw list `[null]` the guard
`typeof it === "object"` passes (because `typeof null === "object"`) and
the subsequent read `it.url` throws a `TypeError`, so the whole map
throws instead of degrading `null` to a stringified entry. -/
theorem c2_null_element_throws :
    normalizeConfigEntries (some [JsValue.null]) =
      .error "TypeError: Cannot read properties of null (reading url)" := rfl

/-- C2 (complement): on every raw list whose elements are not `null`,
`normalize` returns normally, as the spec intends. -/
theorem c2_no_null_returns_normally (l : List JsValue)
    (h : ∀ x ∈ l, isNullVal x = false) :
    ∃ es, normalizeConfigEntries (some l) = .ok es :=
  mapEntries_ok_of_not_null l h

/-- C2 (witness for the complement), on a list with a string, a number
and an object. -/
theorem c2_no_null_witness :
    ∃ es, normalizeConfigEntries
      (some [JsValue.str "https://a", JsValue.num 3,
             JsValue.obj [("url", JsValue.str "u")]]) = .ok es :=
  c2_no_null_returns_normally _ (by decide)

/-- C4 (counterexample): the claimed non-empty-`url` invariant fails on
several raw elements.  The raw element `""` is a string and is passed
through verbatim, so its entry has an empty `url`; and the raw array
elements `[]` and `[""]` take the object branch (`typeof` is `object`,
`.url` is `undefined`, hence falsy) and are coerced to
`{url: String(it)}` where `String([])` and `String([""])` are BOTH the
empty string — empty urls from elements that are not the empty string,
so even exempting `""` cannot repair the invariant. -/
theorem c4_counterexample :
    normalizeConfigEntries (some [JsValue.str ""]) =
      .ok [{ label := JsValue.undefined, url := JsValue.str "" }] ∧
    normalizeConfigEntries (some [JsValue.arr JsArray.nil]) =
      .ok [{ label := JsValue.undefined, url := JsValue.str "" }] ∧
    normalizeConfigEntries (some [JsValue.arr (JsArray.cons (JsValue.str "") JsArray.nil)]) =
      .ok [{ label := JsValue.undefined, url := JsValue.str "" }] ∧
    truthy (JsValue.str "") = false := ⟨rfl, rfl, rfl, rfl⟩

/-- C4 (amended): every entry produced by `normalize` has a truthy
`url`, provided every raw element stringifies to a non-empty string
(`String(it) ≠ ""`).  Under that proviso each entry url is a non-empty
raw string kept verbatim, a truthy object `url` field copied verbatim
(possibly a non-string value), or the non-empty `String(it)`.  The
elements violating the proviso — the empty string, and arrays whose
comma-join is empty such as `[]` and `[""]` — yield entries whose url
is the empty string, rather than being dropped. -/
theorem c4_amended (l : List JsValue) (es : List UrlEntry)
    (hne : ∀ x ∈ l, jsString x ≠ "")
    (h : normalizeConfigEntries (some l) = .ok es) :
    ∀ e ∈ es, truthy e.url = true := by
  intro e he
  obtain ⟨n, rfl⟩ := List.mem_iff_get.mp he
  obtain ⟨hlen, hidx⟩ := mapEntries_spec l es h
  have hj : (n : Nat) < es.length := n.2
  have hi : (n : Nat) < l.length := by omega
  exact normalizeOne_truthy_url (l.get ⟨n, hi⟩)
    (hne _ (List.get_mem l n hi)) _ (hidx n hi hj)

/-- C4 (witness for the amended claim), on a string entry and a
non-empty array element (whose join `1,2` is non-empty). -/
theorem c4_amended_witness :
    truthy ({ label := JsValue.undefined, url := JsValue.str "https://a" } : UrlEntry).url = true ∧
    truthy ({ label := JsValue.undefined, url := JsValue.str "1,2" } : UrlEntry).url = true := by
  have h := c4_amended
    [JsValue.str "https://a",
     JsValue.arr (JsArray.cons (JsValue.num 1) (JsArray.cons (JsValue.num 2) JsArray.nil))]
    [{ label := JsValue.undefined, url := JsValue.str "https://a" },
     { label := JsValue.undefined, url := JsValue.str "1,2" }]
    (by decide) rfl
  exact ⟨h _ (by simp), h _ (by simp)⟩

/-- C5: a successful `normalize` run yields exactly one entry per raw
element, in input order: output length equals input length and the
`i`-th entry is `normalizeOne` of the `i`-th raw element. -/
theorem c5_normalize_preserves_order (l : List JsValue) (es : List UrlEntry)
    (h : normalizeConfigEntries (some l) = .ok es) :
    es.length = l.length ∧ ∀ i (hi : i < l.length) (hj : i < es.length),
      normalizeOne (l.get ⟨i, hi⟩) = .ok (es.get ⟨i, hj⟩) :=
  mapEntries_spec l es h

/-- C5 (witness), on a two-element list: the length matches and the
second output entry is derived from the second input element. -/
theorem c5_normalize_witness :
    ([{ label := JsValue.undefined, url := JsValue.str "a" },
      { label := JsValue.undefined, url := JsValue.str "3" }] : List UrlEntry).length =
      ([JsValue.str "a", JsValue.num 3] : List JsValue).length ∧
    normalizeOne (([JsValue.str "a", JsValue.num 3] : List JsValue).get ⟨1, by decide⟩) =
      .ok (([{ label := JsValue.undefined, url := JsValue.str "a" },
      { label := JsValue.undefined, url := JsValue.str "3" }] : List UrlEntry).get ⟨1, by decide⟩) := by
  have h := c5_normalize_preserves_order [JsValue.str "a", JsValue.num 3]
    [{ label := JsValue.undefined, url := JsValue.str "a" },
     { label := JsValue.undefined, url := JsValue.str "3" }] rfl
  exact ⟨h.1, h.2 1 (by decide) (by decide)⟩

/-- C6: with exactly one normalized entry, selection yields that entry
and the interactive picker is never invoked (the `false` flag records
that `selectEntry` never called `picker`, whatever `picker` is). -/
theorem c6_single_entry_no_picker (e : UrlEntry)
    (picker : List PickItem → Option PickItem) :
    selectEntry [e] picker = (some e, false) := rfl

/-- The expanded data of a present template, with the falsy early
return folded in (the empty template expands to itself either way). -/
theorem expandVariables_data (ctx : Ctx) (s : String) :
    (expandVariables ctx (some s)).data = expandChars (resolveVar ctx) s.data := by
  by_cases hs : s = ""
  · subst hs; rfl
  · simp only [expandVariables, if_neg hs]

/-- A context whose environment variable `E` holds the literal text
`$\x7bunknownvar\x7d`. -/
def ctxC3 : Ctx :=
  { editor := none, workspaceFolders := [], cwd := "/",
    env := fun s => if s = "E" then some "$\x7bunknownvar\x7d" else none }

/-- C3 (counterexample): the output of an expansion CAN contain a
literal `$\x7b...\x7d` placeholder: substituted values are never
re-scanned, so expanding `$\x7benv:E\x7d` when `E` holds
`$\x7bunknownvar\x7d` leaves that placeholder (whose expression matches
no rule and names no environment variable) literally in the output; and
the empty placeholder `$\x7b\x7d` does not match the regex (which
requires a non-empty inner text) and also stays in the output instead of
being replaced by the empty string. -/
theorem c3_counterexample :
    expandVariables ctxC3 (some "$\x7benv:E\x7d") = "$\x7bunknownvar\x7d" ∧
    hasPlaceholder ("$\x7bunknownvar\x7d" : String).data = true ∧
    jsStartsWith "unknownvar" "env:" = false ∧
    jsStartsWith "unknownvar" "workspaceFolder" = false ∧
    ("unknownvar" : String) ∉ (["cwd", "file", "filePath", "fileBasename",
      "fileBasenameNoExtension", "fileDirname", "relativeFile", "selectedText",
      "lineNumber"] : List String) ∧
    ctxC3.env "unknownvar" = none ∧
    expandVariables ctxC3 (some "$\x7b\x7d") = "$\x7b\x7d" :=
  ⟨rfl, rfl, rfl, rfl, by decide, rfl, rfl⟩

/-- C3 (amended): every placeholder of the TEMPLATE with non-empty
inner text containing no closing brace is replaced in place — by the
empty string when its expression matches no named rule and names no
environment variable — and no placeholder of the template survives;
but substituted values are inserted verbatim, so the OUTPUT may still
contain `$\x7b...\x7d` text originating from resolved values, and an
empty `$\x7b\x7d` is not a placeholder and passes through. -/
theorem c3_amended (ctx : Ctx) (pre expr post : String)
    (hpre : ∀ c ∈ pre.data, c ≠ '$')
    (hne : expr.data ≠ [])
    (hnb : '\x7d' ∉ expr.data)
    (h1 : jsStartsWith expr "env:" = false)
    (h2 : jsStartsWith expr "workspaceFolder" = false)
    (hkw : expr ∉ (["cwd", "file", "filePath", "fileBasename", "fileBasenameNoExtension",
      "fileDirname", "relativeFile", "selectedText", "lineNumber"] : List String))
    (henv : ctx.env expr = none) :
    expandVariables ctx (some (pre ++ "$\x7b" ++ expr ++ "\x7d" ++ post)) =
      pre ++ expandVariables ctx (some post) := by
  obtain ⟨h3, h4, h5, h6, h7, h8, h9, h10, h11⟩ :
      expr ≠ "cwd" ∧ expr ≠ "file" ∧ expr ≠ "filePath" ∧ expr ≠ "fileBasename" ∧
      expr ≠ "fileBasenameNoExtension" ∧ expr ≠ "fileDirname" ∧ expr ≠ "relativeFile" ∧
      expr ≠ "selectedText" ∧ expr ≠ "lineNumber" := by
    simpa using hkw
  have hres : resolveVar ctx expr = "" :=
    resolveVar_unknown ctx expr h1 h2 h3 h4 h5 h6 h7 h8 h9 h10 h11 henv
  have hdata : (pre ++ "$\x7b" ++ expr ++ "\x7d" ++ post).data
      = pre.data ++ ('$' :: '\x7b' :: (expr.data ++ '\x7d' :: post.data)) := by
    show pre.data ++ ['$', '\x7b'] ++ expr.data ++ ['\x7d'] ++ post.data = _
    simp
  have htne : (pre ++ "$\x7b" ++ expr ++ "\x7d" ++ post) ≠ "" := by
    intro hcontra
    have h0 := congrArg String.data hcontra
    rw [hdata] at h0
    simp at h0
  have hL : expandVariables ctx (some (pre ++ "$\x7b" ++ expr ++ "\x7d" ++ post))
      = String.mk (expandChars (resolveVar ctx)
          (pre ++ "$\x7b" ++ expr ++ "\x7d" ++ post).data) := by
    simp only [expandVariables, if_neg htne]
  rw [hL, hdata, expandChars_append_no_dollar _ _ _ hpre,
    expandChars_head_match _ _ _ hne hnb, string_mk_data, hres]
  rw [String.ext_iff]
  show pre.data ++ (("" : String).data ++ expandChars (resolveVar ctx) post.data)
      = (pre ++ expandVariables ctx (some post)).data
  rw [show (pre ++ expandVariables ctx (some post)).data
      = pre.data ++ (expandVariables ctx (some post)).data from rfl]
  rw [expandVariables_data]
  rfl

/-- C3 (witness for the amended claim): `x$\x7bunknown_thing\x7dy`
expands to `x` ++ expansion of `y`. -/
theorem c3_amended_witness :
    expandVariables ctx0 (some ("x" ++ "$\x7b" ++ "unknown_thing" ++ "\x7d" ++ "y")) =
      "x" ++ expandVariables ctx0 (some "y") :=
  c3_amended ctx0 "x" "unknown_thing" "y" (by decide) (by decide) (by decide)
    (by decide) (by decide) (by decide) rfl

/-- C8: when a first expansion produced a string without placeholders,
expanding it again changes nothing. -/
theorem c8_idempotent (ctx : Ctx) (t : String)
    (h : hasPlaceholder (expandVariables ctx (some t)).data = false) :
    expandVariables ctx (some (expandVariables ctx (some t))) =
      expandVariables ctx (some t) :=
  expandVariables_id_of_no_placeholder ctx _ h

/-- C8 (witness), on a template whose placeholder resolves to the empty
string. -/
theorem c8_idempotent_witness :
    expandVariables ctx0 (some (expandVariables ctx0 (some "https://e/$\x7bselectedText\x7d"))) =
      expandVariables ctx0 (some "https://e/$\x7bselectedText\x7d") :=
  c8_idempotent ctx0 "https://e/$\x7bselectedText\x7d" (by decide)

/-- C7: when the url of the chosen entry expands to an empty or
all-whitespace string, the orchestrator reports exactly
`URL is empty after variable expansion.` and stops; the opener-invoked
flag stays `false`, and the conclusion holds for every `encode` and
`opener`, so neither is consulted. -/
theorem c7_empty_expansion_stops (raw : Option (List JsValue)) (ctx : Ctx)
    (picker : List PickItem → Option PickItem)
    (encode : String → Except String String) (opener : String → Except String Unit)
    (entries : List UrlEntry) (p : UrlEntry) (pInv : Bool) (expanded : String)
    (hn : normalizeConfigEntries raw = .ok entries)
    (hne : entries.length ≠ 0)
    (hs : selectEntry entries picker = (some p, pInv))
    (he : expandJs ctx p.url = .ok expanded)
    (hw : expanded = "" ∨ (jsTrim expanded).length = 0) :
    openUrlAction raw ctx picker encode opener =
      ⟨.ok (.showError "URL is empty after variable expansion."), pInv, false⟩ := by
  simp only [openUrlAction, hn, if_neg hne, hs, he, if_pos hw]

/-- C7 (witness): a single `$\x7bselectedText\x7d` entry with no active
editor expands to the empty string and only the error notice results. -/
theorem c7_empty_expansion_witness :
    openUrlAction (some [JsValue.str "$\x7bselectedText\x7d"]) ctx0 (fun _ => none)
      (fun s => .ok s) (fun _ => .ok ()) =
      ⟨.ok (.showError "URL is empty after variable expansion."), false, false⟩ :=
  c7_empty_expansion_stops (some [JsValue.str "$\x7bselectedText\x7d"]) ctx0
    (fun _ => none) (fun s => .ok s) (fun _ => .ok ())
    [{ label := JsValue.undefined, url := JsValue.str "$\x7bselectedText\x7d" }]
    { label := JsValue.undefined, url := JsValue.str "$\x7bselectedText\x7d" } false ""
    rfl (by decide) rfl rfl (Or.inl rfl)

/-- C9: failures of the encoding step or of the external opener are
caught at the orchestrator boundary and reported as a single
`Failed to open URL: <description>` error, and the only way the result
of a run can be an uncaught exception is that `normalizeConfigEntries`
itself threw — opener failures never propagate out. -/
theorem c9_opener_failures_caught (raw : Option (List JsValue)) (ctx : Ctx)
    (picker : List PickItem → Option PickItem)
    (encode : String → Except String String) (opener : String → Except String Unit)
    (entries : List UrlEntry) (p : UrlEntry) (pInv : Bool) (expanded : String)
    (hn : normalizeConfigEntries raw = .ok entries)
    (hne : entries.length ≠ 0)
    (hs : selectEntry entries picker = (some p, pInv))
    (he : expandJs ctx p.url = .ok expanded)
    (hw : ¬(expanded = "" ∨ (jsTrim expanded).length = 0)) :
    (∀ m, encode expanded = .error m →
      openUrlAction raw ctx picker encode opener =
        ⟨.ok (.showError ("Failed to open URL: " ++ m)), pInv, false⟩) ∧
    (∀ safe m, encode expanded = .ok safe → opener safe = .error m →
      openUrlAction raw ctx picker encode opener =
        ⟨.ok (.showError ("Failed to open URL: " ++ m)), pInv, true⟩) ∧
    (∀ (raw2 : Option (List JsValue)) (ctx2 : Ctx)
      (picker2 : List PickItem → Option PickItem)
      (encode2 : String → Except String String) (opener2 : String → Except String Unit)
      (e : String),
      (openUrlAction raw2 ctx2 picker2 encode2 opener2).result = .error e →
      normalizeConfigEntries raw2 = .error e) := by
  refine ⟨?_, ?_, ?_⟩
  · intro m henc
    simp only [openUrlAction, hn, if_neg hne, hs, he, if_neg hw, henc]
  · intro safe m henc hop
    simp only [openUrlAction, hn, if_neg hne, hs, he, if_neg hw, henc, hop]
  · intro raw2 ctx2 picker2 encode2 opener2 e hres
    unfold openUrlAction at hres
    match hn2 : normalizeConfigEntries raw2 with
    | .error e2 =>
      simp only [hn2] at hres
      simp at hres
      rw [hres]
    | .ok entries2 =>
      simp only [hn2] at hres
      by_cases h0 : entries2.length = 0
      · simp only [if_pos h0] at hres
        simp at hres
      · simp only [if_neg h0] at hres
        match hs2 : selectEntry entries2 picker2 with
        | (none, pi2) => simp only [hs2] at hres; simp at hres
        | (some p2, pi2) =>
          simp only [hs2] at hres
          match he2 : expandJs ctx2 p2.url with
          | .error e3 => simp only [he2] at hres; simp at hres
          | .ok ex2 =>
            simp only [he2] at hres
            by_cases hw2 : ex2 = "" ∨ (jsTrim ex2).length = 0
            · simp only [if_pos hw2] at hres; simp at hres
            · simp only [if_neg hw2] at hres
              match hen2 : encode2 ex2 with
              | .error e4 => simp only [hen2] at hres; simp at hres
              | .ok safe2 =>
                simp only [hen2] at hres
                match ho2 : opener2 safe2 with
                | .error e5 => simp only [ho2] at hres; simp at hres
                | .ok u => simp only [ho2] at hres; simp at hres

/-- C9 (witness): a failing opener (`boom`) on a plain one-entry
configuration yields the single caught error message. -/
theorem c9_opener_failures_witness :
    openUrlAction (some [JsValue.str "https://a"]) ctx0 (fun _ => none)
      (fun s => .ok s) (fun _ => .error "boom") =
      ⟨.ok (.showError ("Failed to open URL: " ++ "boom")), false, true⟩ :=
  (c9_opener_failures_caught (some [JsValue.str "https://a"]) ctx0 (fun _ => none)
    (fun s => .ok s) (fun _ => .error "boom")
    [{ label := JsValue.undefined, url := JsValue.str "https://a" }]
    { label := JsValue.undefined, url := JsValue.str "https://a" } false "https://a"
    rfl (by decide) rfl rfl (by decide)).2.1 "https://a" "boom" rfl rfl

/-- C10: every expression that merely starts with `workspaceFolder` and
contains no colon — such as `workspaceFolders` — takes the
`workspaceFolder` branch: `split(":")` returns the single-element list,
so the resolver yields the path of the first workspace folder (empty string
when there is none), regardless of what the environment holds for that
name. -/
theorem c10_workspaceFolder_aliases (ctx : Ctx) (expr : String)
    (h1 : jsStartsWith expr "workspaceFolder" = true)
    (h2 : expr ≠ "workspaceFolder")
    (h3 : ':' ∉ expr.data) :
    resolveVar ctx expr =
      ((ctx.workspaceFolders[0]?).map WorkspaceFolder.fsPath).getD "" := by
  have henvp : jsStartsWith expr "env:" = false := by
    rcases Bool.eq_false_or_eq_true (jsStartsWith expr "env:") with h | h
    · exact absurd (env_prefixed_has_colon expr h) h3
    · exact h
  have hsplit : jsSplit expr ':' = [expr] := by
    unfold jsSplit
    rw [splitOnChar_of_not_mem ':' expr.data h3]
    simp [string_mk_data]
  simp [resolveVar, henvp, h1, hsplit]

/-- Two workspace folders and an environment variable that shadows the
alias name `workspaceFolders`. -/
def ctxC10 : Ctx :=
  { editor := none,
    workspaceFolders := [{ name := "frontend", fsPath := "/a" },
                         { name := "backend", fsPath := "/b" }],
    cwd := "/", env := fun s => if s = "workspaceFolders" then some "/env" else none }

/-- C10 (witness): `workspaceFolders` resolves to `/a`, the first
first-folder path, even though an environment variable of that exact name
holds `/env`. -/
theorem c10_workspaceFolder_witness :
    resolveVar ctxC10 "workspaceFolders" =
      ((ctxC10.workspaceFolders[0]?).map WorkspaceFolder.fsPath).getD "" ∧
    ((ctxC10.workspaceFolders[0]?).map WorkspaceFolder.fsPath).getD "" = "/a" ∧
    ctxC10.env "workspaceFolders" = some "/env" :=
  ⟨c10_workspaceFolder_aliases ctxC10 "workspaceFolders" (by decide) (by decide) (by decide),
    rfl, rfl⟩
